import Mathlib

/-!
# BenchmarkHub — formal model of the client-side state layer

A shallow embedding of the state-management core of the BenchmarkHub
React application (`src/App.tsx`, second revision in the file, plus
`src/types.ts`).  Records, the saved library, named lists, the
comparison selection, search history, CSV/JSON import/export and the
retrieval-session state machine are translated into executable Lean
definitions, and the specification's claims about them are settled as
theorems.

Strings are modelled by Lean `String` (a wrapper around `List Char`);
JavaScript `undefined` for optional fields is modelled by `Option`.
-/

namespace BenchmarkHub

/-- `BenchmarkDataset` from `src/types.ts`.  The `source` union of string
literals is modelled as `String` (its runtime representation); optional
fields are `Option`.  `groundingSources` is a list of `(uri, title)`
pairs. -/
structure BenchmarkDataset where
  id : String
  title : String
  source : String
  paperLink : String
  githubLink : Option String := none
  description : String
  itemCount : Option String := none
  specs : Option String := none
  year : Option String := none
  authors : Option (List String) := none
  groundingSources : Option (List (String × String)) := none
deriving DecidableEq, Repr

/-- `DatasetList` (a named collection): holds only surrogate ids. -/
structure DatasetList where
  id : String
  name : String
  datasetIds : List String
  createdAt : Nat
deriving DecidableEq, Repr

/-- `SearchState` from `src/types.ts`.  `progress` is a natural number:
the second revision of the app only ever adds integral increments. -/
structure SearchState where
  isSearching : Bool
  results : List BenchmarkDataset
  error : Option String := none
  progress : Nat
  status : String
deriving DecidableEq, Repr

/-! ## Library save operations -/

/-- `handleSave` (App.tsx:989-994): saving is a no-op when a record with
the same `paperLink` is already in the library; otherwise the record is
appended with a freshly minted surrogate id (`saved-${Date.now()}-…`,
modelled by the explicit `fresh` argument). -/
def handleSave (fresh : String) (prev : List BenchmarkDataset)
    (dataset : BenchmarkDataset) : List BenchmarkDataset :=
  if prev.any (fun d => d.paperLink = dataset.paperLink) then prev
  else prev ++ [{ dataset with id := fresh }]

/-- `handleSaveAll` (App.tsx:153-160, first revision): append every
search result whose `paperLink` is not already in the library. -/
def handleSaveAll (results saved : List BenchmarkDataset) :
    List BenchmarkDataset :=
  let newItems := results.filter
    (fun res => ¬ saved.any (fun s => s.paperLink = res.paperLink))
  saved ++ newItems

/-! ## Search history -/

/-- The history cap `MAX_HISTORY_ITEMS` (App.tsx:629). -/
def MAX_HISTORY_ITEMS : Nat := 8

/-- JavaScript `toLowerCase`, modelled character-wise. -/
def toLowerStr (s : String) : String := String.mk (s.data.map Char.toLower)

/-- The history update inlined in `handleSearch` (App.tsx:960):
`[activeQuery, ...prev.filter(q => q !== activeQuery)].slice(0, 8)`.
Note the comparison is exact string equality. -/
def searchHistoryUpdate (activeQuery : String) (prev : List String) :
    List String :=
  (activeQuery :: prev.filter (fun q => q ≠ activeQuery)).take MAX_HISTORY_ITEMS

/-- `addToHistory` (App.tsx:89-95, first revision): same update but the
duplicate filter compares lower-cased strings. -/
def addToHistory (newQuery : String) (prev : List String) : List String :=
  (newQuery :: prev.filter
    (fun q => toLowerStr q ≠ toLowerStr newQuery)).take MAX_HISTORY_ITEMS

/-! ## Comparison selection -/

/-- `toggleComparison` (App.tsx:1015-1019): flip membership of a natural
key (paper link) in the selection list. -/
def toggleComparison (link : String) (prev : List String) : List String :=
  if prev.contains link then prev.filter (fun l => l ≠ link)
  else prev ++ [link]

/-- `Array.from(new Set(xs))`: deduplicate keeping first occurrences. -/
def dedupFirst : List String → List String
  | [] => []
  | x :: xs => x :: (dedupFirst xs).filter (fun y => y ≠ x)

/-- `toggleSelectAllVisible` (App.tsx:1078-1090): when every visible
link is selected (and there is at least one), remove exactly the visible
links; otherwise add all visible links (via a `Set` union keeping first
occurrences). -/
def toggleSelectAllVisible (allVisibleLinks prev : List String) :
    List String :=
  if allVisibleLinks.length > 0 ∧
      allVisibleLinks.all (fun link => prev.contains link) then
    prev.filter (fun link => ¬ allVisibleLinks.contains link)
  else
    dedupFirst (prev ++ allVisibleLinks)

/-! ## App state: remove, list toggling -/

/-- The slice of component state the collection-store claims range over:
the saved library, the named lists, the comparison selection, plus the
other two record collections (search results, curated feed). -/
structure AppState where
  savedDatasets : List BenchmarkDataset
  customLists : List DatasetList
  selectedForComparisonLinks : List String
  searchResults : List BenchmarkDataset
  recommendedDatasets : List BenchmarkDataset
deriving DecidableEq, Repr

/-- `handleRemove` (App.tsx:996-999): drop the record with the given
surrogate id from the library and prune the id from every custom list's
`datasetIds`.  The comparison selection is not touched. -/
def handleRemove (id : String) (st : AppState) : AppState :=
  { st with
    savedDatasets := st.savedDatasets.filter (fun d => d.id ≠ id)
    customLists := st.customLists.map
      (fun l => { l with datasetIds := l.datasetIds.filter (fun did => did ≠ id) }) }

/-- `toggleDatasetInList` (App.tsx:1001-1013): toggle the surrogate id's
membership in the list with the given id.  There is no check that the
record is in the library. -/
def toggleDatasetInList (datasetId listId : String) (st : AppState) :
    AppState :=
  { st with
    customLists := st.customLists.map (fun list =>
      if list.id = listId then
        { list with
          datasetIds :=
            if list.datasetIds.contains datasetId then
              list.datasetIds.filter (fun id => id ≠ datasetId)
            else list.datasetIds ++ [datasetId] }
      else list) }

/-! ## Comparison resolution -/

/-- `allAvailableDatasetsByLink` (App.tsx:1054-1060): a `Map` built by
inserting the curated feed, then the search results, then the library;
later insertions overwrite earlier ones, so a lookup returns the last
record with the key in `recommended ++ results ++ saved`. -/
def allAvailableDatasetsByLink (st : AppState) (link : String) :
    Option BenchmarkDataset :=
  ((st.recommendedDatasets ++ st.searchResults ++ st.savedDatasets).reverse).find?
    (fun d => d.paperLink = link)

/-- `comparisonItems` (App.tsx:1062-1066): resolve each selected link,
silently dropping links with no live record. -/
def comparisonItems (st : AppState) : List BenchmarkDataset :=
  st.selectedForComparisonLinks.filterMap (allAvailableDatasetsByLink st)

/-! ## View projector: filtering and sorting -/

/-- `SortField` from `src/types.ts`. -/
inductive SortField | year | title
deriving DecidableEq, Repr

/-- `SortOrder` from `src/types.ts`. -/
inductive SortOrder | asc | desc
deriving DecidableEq, Repr

/-- `SortConfig` from `src/types.ts`. -/
structure SortConfig where
  field : SortField
  order : SortOrder
deriving DecidableEq, Repr

/-- `(a[sortConfig.field] || '')`: the record's value at a sort field,
with a missing year coerced to the empty string. -/
def sortFieldValue (f : SortField) (d : BenchmarkDataset) : String :=
  match f with
  | SortField.year => d.year.getD ""
  | SortField.title => d.title

/-- Lexicographic comparison of character lists (by code point). -/
def compareChars : List Char → List Char → Ordering
  | [], [] => Ordering.eq
  | [], _ :: _ => Ordering.lt
  | _ :: _, [] => Ordering.gt
  | a :: as, b :: bs =>
    if a < b then Ordering.lt
    else if b < a then Ordering.gt
    else compareChars as bs

/-- `String.prototype.localeCompare`, modelled (for the default locale on
the plain strings this app compares) as lexicographic comparison by code
point, returning a negative, zero or positive integer. -/
def localeCompare (a b : String) : Int :=
  match compareChars a.data b.data with
  | Ordering.lt => -1
  | Ordering.eq => 0
  | Ordering.gt => 1

/-- Insert into an accumulated list after every element that does not
compare strictly greater — the insertion step of a stable sort. -/
def insertStable (cmp : α → α → Int) (x : α) : List α → List α
  | [] => [x]
  | y :: ys => if cmp x y < 0 then x :: y :: ys else y :: insertStable cmp x ys

/-- `Array.prototype.sort` with a comparator: JavaScript's sort is
stable, so it is modelled by stable insertion sort (any stable sort
agrees on a consistent comparator). -/
def jsSort (cmp : α → α → Int) (l : List α) : List α :=
  l.foldl (fun acc x => insertStable cmp x acc) []

/-- JavaScript whitespace for `trim` (the characters occurring here). -/
def isJsWs (c : Char) : Bool :=
  c = ' ' ∨ c = '\t' ∨ c = '\n' ∨ c = '\r'

/-- `String.prototype.trim`. -/
def trimStr (s : String) : String :=
  String.mk (((s.data.dropWhile isJsWs).reverse.dropWhile isJsWs).reverse)

/-- Leading-match test on character lists. -/
def startsWithChars : List Char → List Char → Bool
  | [], _ => true
  | _ :: _, [] => false
  | a :: as, b :: bs => a = b && startsWithChars as bs

/-- Contiguous-sublist test on character lists. -/
def isInfixOfChars (sub : List Char) : List Char → Bool
  | [] => sub.isEmpty
  | c :: t => startsWithChars sub (c :: t) || isInfixOfChars sub t

/-- `a.includes(b)` on strings: substring containment. -/
def includesStr (s sub : String) : Bool := isInfixOfChars sub.data s.data

/-- Numeric value of a digit list. -/
def digitsVal (ds : List Char) : Nat :=
  ds.foldl (fun acc c => acc * 10 + (c.toNat - '0'.toNat)) 0

/-- `parseInt(s) || 0`: skip leading whitespace, optional sign, read
leading digits; no digits (`NaN`) or a zero value both give `0`. -/
def jsParseIntOr0 (s : String) : Int :=
  let t := s.data.dropWhile isJsWs
  match t with
  | '-' :: rest =>
    let ds := rest.takeWhile Char.isDigit
    if ds.isEmpty then 0 else -(digitsVal ds : Int)
  | '+' :: rest =>
    let ds := rest.takeWhile Char.isDigit
    if ds.isEmpty then 0 else (digitsVal ds : Int)
  | _ =>
    let ds := t.takeWhile Char.isDigit
    if ds.isEmpty then 0 else (digitsVal ds : Int)

/-- The comparator of `filteredAndSorted` (App.tsx:1027-1031): compare
the lower-cased field values with `localeCompare` in both directions.
Years are NOT parsed as integers here. -/
def filteredAndSortedCmp (cfg : SortConfig) (a b : BenchmarkDataset) : Int :=
  let va := toLowerStr (sortFieldValue cfg.field a)
  let vb := toLowerStr (sortFieldValue cfg.field b)
  match cfg.order with
  | SortOrder.asc => localeCompare va vb
  | SortOrder.desc => localeCompare vb va

/-- `filteredAndSorted` (App.tsx:1021-1032): free-text filter over
title+description only, then sort with `filteredAndSortedCmp`. -/
def filteredAndSorted (filterQuery : String) (cfg : SortConfig)
    (items : List BenchmarkDataset) : List BenchmarkDataset :=
  let result :=
    if trimStr filterQuery ≠ "" then
      let lq := toLowerStr filterQuery
      items.filter (fun d =>
        includesStr (toLowerStr (d.title ++ " " ++ d.description)) lq)
    else items
  jsSort (filteredAndSortedCmp cfg) result

/-- The comparator of `filterAndSortItems` (App.tsx:264-277, first
revision): years are parsed as integers (`parseInt(..) || 0`) and
compared numerically; titles lexically. -/
def filterAndSortItemsCmp (cfg : SortConfig) (a b : BenchmarkDataset) : Int :=
  let va := toLowerStr (sortFieldValue cfg.field a)
  let vb := toLowerStr (sortFieldValue cfg.field b)
  match cfg.field with
  | SortField.year =>
    let yearA := jsParseIntOr0 va
    let yearB := jsParseIntOr0 vb
    match cfg.order with
    | SortOrder.asc => yearA - yearB
    | SortOrder.desc => yearB - yearA
  | SortField.title =>
    match cfg.order with
    | SortOrder.asc => localeCompare va vb
    | SortOrder.desc => localeCompare vb va

/-- `filterAndSortItems` (App.tsx:245-278, first revision): broad
free-text filter (title, description, source, year, specs, itemCount,
authors joined by spaces), then sort with `filterAndSortItemsCmp`. -/
def filterAndSortItems (filterQuery : String) (cfg : SortConfig)
    (items : List BenchmarkDataset) : List BenchmarkDataset :=
  let result :=
    if trimStr filterQuery ≠ "" then
      let lq := toLowerStr filterQuery
      items.filter (fun d =>
        includesStr
          (toLowerStr (String.intercalate " "
            ([d.title, d.description, d.source, d.year.getD "",
              d.specs.getD "", d.itemCount.getD ""] ++ d.authors.getD []))) lq)
    else items
  jsSort (filterAndSortItemsCmp cfg) result

/-! ## Retrieval session state machine -/

/-- `SEARCH_STATUSES` (App.tsx:614-623). -/
def SEARCH_STATUSES : List String :=
  ["Initializing search parameters...",
   "Querying academic databases (arXiv, Scholar)...",
   "Checking Hugging Face datasets...",
   "Identifying benchmark datasets in papers...",
   "Cross-referencing GitHub repositories...",
   "Extracting specifications and metrics...",
   "Analyzing data formats and sizes...",
   "Synthesizing results..."]

/-- The state installed by `handleSearch` on submission (App.tsx:965). -/
def startSearchState : SearchState :=
  { isSearching := true, results := [], error := none, progress := 5,
    status := SEARCH_STATUSES.getD 0 "" }

/-- One tick of the progress interval (App.tsx:969-976). -/
def progressTick (prev : SearchState) : SearchState :=
  if ¬ prev.isSearching then prev
  else
    let nextProgress := min (prev.progress + 2) 95
    let statusIdx := min (nextProgress * SEARCH_STATUSES.length / 100)
      (SEARCH_STATUSES.length - 1)
    { prev with progress := nextProgress,
                status := SEARCH_STATUSES.getD statusIdx "" }

/-- `handleCancelSearch` (App.tsx:939-952): abort the controller, stop
the interval, and mark the state cancelled (results and error are kept
from `prev` by the spread). -/
def handleCancelSearch (prev : SearchState) : SearchState :=
  { prev with isSearching := false, status := "Search cancelled by user",
              progress := 0 }

/-- The continuation after `await searchBenchmarkDatasets(..)` resolves
successfully (App.tsx:979-981).  `searchBenchmarkDatasets` is never
given the `AbortController`'s signal, so this continuation runs — and
replaces the whole search state — regardless of a preceding
cancellation. -/
def resolveSearchSuccess (results : List BenchmarkDataset)
    (_prev : SearchState) : SearchState :=
  { isSearching := false, results := results, error := none,
    progress := 100, status := "Complete" }

/-- The continuation when the retrieval call rejects with a non-abort
error (App.tsx:982-986).  Since the abort signal is never wired to the
request, an `AbortError` cannot actually occur. -/
def resolveSearchError (msg : String) (_prev : SearchState) : SearchState :=
  { isSearching := false, results := [], error := some msg,
    progress := 0, status := "" }

/-! ## CSV export (`handleExport`, App.tsx:811-837) -/

/-- Double every quote character (`str.replace(/"/g, '""')`). -/
def dq : List Char → List Char
  | [] => []
  | c :: r => if c = '"' then '"' :: '"' :: dq r else c :: dq r

/-- `escapeCSV` (App.tsx:813-816): wrap in quotes, doubling inner
quotes.  The `str = ""` default parameter maps `undefined` to `""`;
callers pass `Option.getD "" `accordingly. -/
def escapeCSV (s : String) : List Char := '"' :: (dq s.data ++ ['"'])

/-- `d.authors?.join(", ")` with `undefined` coerced to `""` by
`escapeCSV`'s default parameter. -/
def joinAuthors (authors : Option (List String)) : String :=
  String.mk (List.intercalate [',', ' '] ((authors.getD []).map String.data))

/-- One exported CSV row (App.tsx:817-827): the nine escaped fields
joined by commas. -/
def rowOfChars (d : BenchmarkDataset) : List Char :=
  List.intercalate [','] [
    escapeCSV d.title,
    escapeCSV d.source,
    escapeCSV (joinAuthors d.authors),
    escapeCSV (d.year.getD ""),
    escapeCSV d.paperLink,
    escapeCSV (d.githubLink.getD ""),
    escapeCSV (d.itemCount.getD ""),
    escapeCSV (d.specs.getD ""),
    escapeCSV d.description]

/-- The header row (App.tsx:812, joined with commas, unquoted). -/
def headerChars : List Char :=
  "Title,Source,Authors,Year,Paper Link,GitHub Link,Item Count,Specs,Description".data

/-- `handleExport` (App.tsx:811-837): the byte content of the exported
file — a BOM, then header and rows joined by `"\n"`. -/
def handleExport (savedDatasets : List BenchmarkDataset) : String :=
  String.mk (Char.ofNat 0xFEFF :: List.intercalate ['\n']
    (headerChars :: savedDatasets.map rowOfChars))

/-! ## CSV import (`handleImport`, App.tsx:850-895) -/

/-- Split a character list at every occurrence of `sep` (JavaScript
`String.prototype.split` with a one-character separator; `""` splits to
`[""]`). -/
def splitCh (sep : Char) : List Char → List (List Char)
  | [] => [[]]
  | c :: r =>
    if c = sep then [] :: splitCh sep r
    else
      match splitCh sep r with
      | [] => [[c]]
      | h :: t => (c :: h) :: t

/-- The character loop of `parseCSVLine` (App.tsx:700-722): a doubled
quote inside quotes emits one quote and skips both characters, a lone
quote toggles the in-quotes flag, an unquoted comma ends the current
field, and any other character (including a quoted comma) is appended to
the current field. -/
def parseCSVChars : List Char → Bool → List Char → List (List Char)
  | [], _, cur => [cur]
  | [c], inQuotes, cur =>
    if c = '"' then [cur]
    else if c = ',' ∧ ¬ inQuotes then [cur, []]
    else [cur ++ [c]]
  | c1 :: c2 :: rest, true, cur =>
    if c1 = '"' then
      if c2 = '"' then parseCSVChars rest true (cur ++ ['"'])
      else parseCSVChars (c2 :: rest) false cur
    else parseCSVChars (c2 :: rest) true (cur ++ [c1])
  | c1 :: c2 :: rest, false, cur =>
    if c1 = '"' then parseCSVChars (c2 :: rest) true cur
    else if c1 = ',' then cur :: parseCSVChars (c2 :: rest) false []
    else parseCSVChars (c2 :: rest) false (cur ++ [c1])

/-- `parseCSVLine` (App.tsx:700-722). -/
def parseCSVLine (line : String) : List String :=
  (parseCSVChars line.data false []).map String.mk

/-- `cols[2].split(',').map(a => a.trim()).filter(a => a)`: the author
cell split back on commas. -/
def parseAuthorsCell (cell : String) : List String :=
  ((splitCh ',' cell.data).map (fun a => trimStr (String.mk a))).filter
    (fun a => a ≠ "")

/-- The record built from one imported CSV row (App.tsx:871-882), given
the minted surrogate id.  Guarded by `cols.length ≥ 5`, so `cols[0..4]`
exist; `cols[5..8]` may be `undefined`: `githubLink` uses `cols[5] ||
undefined`, `itemCount`/`specs` keep `undefined` as a missing field, and
`title`/`description` (typed `string`) are modelled as `""` when the
column is absent. -/
def mkImportedRecord (mintedId : String) (cols : List String) :
    BenchmarkDataset :=
  { id := mintedId,
    title := cols.getD 0 "",
    source := if cols.getD 1 "" = "" then "Other" else cols.getD 1 "",
    authors := some (parseAuthorsCell (cols.getD 2 "")),
    year := some (cols.getD 3 ""),
    paperLink := cols.getD 4 "",
    githubLink := if cols.getD 5 "" = "" then none else some (cols.getD 5 ""),
    itemCount := cols.get? 6,
    specs := cols.get? 7,
    description := cols.getD 8 "" }

/-- The row loop of `handleImport` (App.tsx:864-883): skip blank lines,
rows with fewer than 5 columns, and rows whose paper link is in
`existingLinks` — a set computed once from the library before the loop,
never extended during it.  `mint i` models the
`imported-${Date.now()}-${i}-${random}` id for line index `i`. -/
def handleImportRows (mint : Nat → String) (existingLinks : List String) :
    Nat → List String → List BenchmarkDataset
  | _, [] => []
  | i, line :: rest =>
    if trimStr line = "" then handleImportRows mint existingLinks (i + 1) rest
    else
      let cols := parseCSVLine line
      if cols.length < 5 then handleImportRows mint existingLinks (i + 1) rest
      else if existingLinks.contains (cols.getD 4 "") then
        handleImportRows mint existingLinks (i + 1) rest
      else
        mkImportedRecord (mint i) cols ::
          handleImportRows mint existingLinks (i + 1) rest

/-- `handleImport` (App.tsx:850-895): split the file into lines (the
exported content contains no carriage returns, so `/\r?\n/` coincides
with splitting at `'\n'`), skip the header, and append all accepted
rows to the library. -/
def handleImport (mint : Nat → String) (text : String)
    (savedDatasets : List BenchmarkDataset) : List BenchmarkDataset :=
  let lines := (splitCh '\n' text.data).map String.mk
  if lines.length < 2 then savedDatasets
  else
    savedDatasets ++
      handleImportRows mint (savedDatasets.map (fun d => d.paperLink)) 1
        lines.tail

/-! ## JSON import (`handleImportJSON`, App.tsx:897-937) -/

/-- One parsed entry of an imported JSON array, shaped like a dataset
record (the importer spreads all of an entry's fields through
unchanged); `title` and `paperLink` are optional because the importer
checks their presence (`!item.title || !item.paperLink`, which also
rejects empty strings). -/
structure JsonEntry where
  title : Option String := none
  source : String := "Other"
  paperLink : Option String := none
  githubLink : Option String := none
  description : String := ""
  itemCount : Option String := none
  specs : Option String := none
  year : Option String := none
  authors : Option (List String) := none
  groundingSources : Option (List (String × String)) := none
deriving DecidableEq, Repr

/-- The `data.forEach` loop of `handleImportJSON` (App.tsx:915-923):
skip entries with a missing (or empty, hence falsy) title or paper link
and entries whose paper link is in `existingLinks` — a set fixed before
the loop, never extended during it; accepted entries are passed through
with a minted id (`mint i` for array index `i`, starting at 0). -/
def importJSONEntries (mint : Nat → String) (existingLinks : List String) :
    Nat → List JsonEntry → List BenchmarkDataset
  | _, [] => []
  | i, e :: rest =>
    match e.title, e.paperLink with
    | some t, some link =>
      if t = "" ∨ link = "" then importJSONEntries mint existingLinks (i + 1) rest
      else if existingLinks.contains link then
        importJSONEntries mint existingLinks (i + 1) rest
      else
        { id := mint i, title := t, source := e.source, paperLink := link,
          githubLink := e.githubLink, description := e.description,
          itemCount := e.itemCount, specs := e.specs, year := e.year,
          authors := e.authors,
          groundingSources := e.groundingSources } ::
          importJSONEntries mint existingLinks (i + 1) rest
    | _, _ => importJSONEntries mint existingLinks (i + 1) rest

/-- `handleImportJSON` (App.tsx:897-937): append the accepted entries to
the library. -/
def handleImportJSON (mint : Nat → String) (data : List JsonEntry)
    (savedDatasets : List BenchmarkDataset) : List BenchmarkDataset :=
  savedDatasets ++
    importJSONEntries mint (savedDatasets.map (fun d => d.paperLink)) 0 data

/-! ## Concrete fixtures used by counterexamples and witnesses -/

/-- A minimal record fixture. -/
def sampleDataset : BenchmarkDataset :=
  { id := "r1", title := "T", source := "Other", paperLink := "p",
    description := "D" }

/-- A second fixture with a different natural key. -/
def sampleDataset2 : BenchmarkDataset :=
  { id := "r2", title := "U", source := "arXiv", paperLink := "q",
    description := "E" }

/-! ## Theorems -/

/-- **C3.**  Saving a record whose natural key (paper link) already
occurs in the library is a no-op: `handleSave` returns the previous
library unchanged, so the existing record keeps all of its field values
(first-write-wins). -/
theorem C3_save_duplicate_noop (fresh : String)
    (prev : List BenchmarkDataset) (dataset : BenchmarkDataset)
    (h : ∃ d ∈ prev, d.paperLink = dataset.paperLink) :
    handleSave fresh prev dataset = prev := by
  obtain ⟨d, hd, hk⟩ := h
  simp only [handleSave, if_pos]
  rw [if_pos]
  rw [List.any_eq_true]
  exact ⟨d, hd, by simp [hk]⟩

/-- Witness for C3 at a concrete input: the library `[sampleDataset]`
already holds key `"p"`, so saving another record with key `"p"` leaves
it unchanged. -/
theorem C3_save_duplicate_noop_witness :
    handleSave "fresh" [sampleDataset] { sampleDataset2 with paperLink := "p" }
      = [sampleDataset] :=
  C3_save_duplicate_noop "fresh" [sampleDataset]
    { sampleDataset2 with paperLink := "p" } ⟨sampleDataset, by simp, by decide⟩

/-- **C9, counterexample.**  The history update performed by
`handleSearch` compares queries with exact (case-sensitive) equality:
submitting `"foo"` over a history `["Foo"]` keeps the case-variant
`"Foo"`, although the two are equal under case-insensitive comparison —
the claimed case-insensitive deduplication does not happen. -/
theorem C9_counterexample :
    searchHistoryUpdate "foo" ["Foo"] = ["foo", "Foo"] ∧
      toLowerStr "Foo" = toLowerStr "foo" := by
  constructor <;> decide

/-- **C9, amended.**  On every search submission the query is inserted
at the front of the history, entries equal to it under exact
(case-sensitive) comparison are removed, the remaining entries keep
their order, and the history is truncated to at most 8 entries. -/
theorem C9_history_update (q : String) (prev : List String) :
    (searchHistoryUpdate q prev).length ≤ MAX_HISTORY_ITEMS ∧
      (searchHistoryUpdate q prev).head? = some q ∧
      (searchHistoryUpdate q prev).tail.Sublist prev ∧
      ∀ x ∈ (searchHistoryUpdate q prev).tail, x ≠ q := by
  refine ⟨?_, ?_, ?_, ?_⟩
  · simp [searchHistoryUpdate, List.length_take_le]
  · simp [searchHistoryUpdate, MAX_HISTORY_ITEMS]
  · simp only [searchHistoryUpdate, MAX_HISTORY_ITEMS, List.take_succ_cons,
      List.tail_cons]
    exact (List.take_sublist _ _).trans (List.filter_sublist _)
  · intro x hx
    simp only [searchHistoryUpdate, MAX_HISTORY_ITEMS, List.take_succ_cons,
      List.tail_cons] at hx
    have := List.mem_of_mem_take hx
    simp only [List.mem_filter, decide_eq_true_eq] at this
    exact this.2

/-- Witness for C9's amended theorem at a concrete input: submitting
`"a"` over the history `["b", "a"]` puts `"a"` in front, keeps `"b"`,
and drops the old `"a"`. -/
theorem C9_history_update_witness :
    (searchHistoryUpdate "a" ["b", "a"]).length ≤ MAX_HISTORY_ITEMS ∧
      (searchHistoryUpdate "a" ["b", "a"]).head? = some "a" ∧
      (searchHistoryUpdate "a" ["b", "a"]).tail.Sublist ["b", "a"] ∧
      (("b" : String) ∈ (searchHistoryUpdate "a" ["b", "a"]).tail →
        ("b" : String) ≠ "a") :=
  ⟨(C9_history_update "a" ["b", "a"]).1,
   (C9_history_update "a" ["b", "a"]).2.1,
   (C9_history_update "a" ["b", "a"]).2.2.1,
   fun h => (C9_history_update "a" ["b", "a"]).2.2.2 "b" h⟩

/-- The session state reached by submitting a search, letting the
progress timer tick once, and cancelling. -/
def cancelledState : SearchState :=
  handleCancelSearch (progressTick startSearchState)

/-- **C2.**  The code contradicts the claimed cancellation semantics:
because `handleSearch` never passes the `AbortController`'s signal to
`searchBenchmarkDatasets`, the `await` continuation runs when the
retrieval later resolves and overwrites the cancelled state (results
stored, progress 100, status `"Complete"`) instead of discarding the
late response.  Evaluated at the failing input: a cancelled session
(searching stopped, progress 0, empty results) mutated by a late
successful resolution carrying one record. -/
theorem C2_late_resolve_overwrites_cancelled :
    cancelledState.isSearching = false ∧
      cancelledState.progress = 0 ∧
      cancelledState.results = [] ∧
      resolveSearchSuccess [sampleDataset] cancelledState ≠ cancelledState ∧
      (resolveSearchSuccess [sampleDataset] cancelledState).results
        = [sampleDataset] ∧
      (resolveSearchSuccess [sampleDataset] cancelledState).progress = 100 := by
  refine ⟨rfl, rfl, rfl, ?_, rfl, rfl⟩
  decide

/-- The state fixture for C5: the library holds the single record with
surrogate id `"r1"` and natural key `"p"`, that key is selected for
comparison, and no other collection holds any record. -/
def removeFixture : AppState :=
  { savedDatasets := [sampleDataset], customLists := [],
    selectedForComparisonLinks := ["p"], searchResults := [],
    recommendedDatasets := [] }

/-- **C5, counterexample.**  Removing the only record with natural key
`"p"` leaves `"p"` in the comparison selection set even though no live
record in any collection shares that key — `handleRemove` never touches
the selection, contradicting the claim. -/
theorem C5_counterexample :
    (handleRemove "r1" removeFixture).savedDatasets = [] ∧
      (handleRemove "r1" removeFixture).searchResults = [] ∧
      (handleRemove "r1" removeFixture).recommendedDatasets = [] ∧
      (handleRemove "r1" removeFixture).selectedForComparisonLinks = ["p"] := by
  refine ⟨?_, rfl, rfl, rfl⟩
  decide

/-- **C5, amended.**  Removing a library record never removes anything
from the comparison selection set; instead, a selected key that no live
record shares is silently resolved to nothing (and hence omitted from
the comparison sequence). -/
theorem C5_remove_keeps_selection (id : String) (st : AppState) :
    (handleRemove id st).selectedForComparisonLinks
        = st.selectedForComparisonLinks ∧
      ∀ link,
        (∀ d ∈ (handleRemove id st).recommendedDatasets ++
            (handleRemove id st).searchResults ++
            (handleRemove id st).savedDatasets, d.paperLink ≠ link) →
        allAvailableDatasetsByLink (handleRemove id st) link = none := by
  refine ⟨rfl, ?_⟩
  intro link h
  rw [allAvailableDatasetsByLink, List.find?_eq_none]
  intro d hd
  simp only [List.mem_reverse] at hd
  simp [h d hd]

/-- Witness for C5's amended theorem at the concrete fixture: after
removing `"r1"`, the selection still reads `["p"]` and the stale key
`"p"` resolves to no record. -/
theorem C5_remove_keeps_selection_witness :
    (handleRemove "r1" removeFixture).selectedForComparisonLinks = ["p"] ∧
      allAvailableDatasetsByLink (handleRemove "r1" removeFixture) "p"
        = none := by
  have h := C5_remove_keeps_selection "r1" removeFixture
  exact ⟨h.1, h.2 "p" (by decide)⟩

/-- The state fixture for C6: an empty library and one empty list. -/
def toggleFixture : AppState :=
  { savedDatasets := [], customLists := [⟨"l1", "L", [], 0⟩],
    selectedForComparisonLinks := [], searchResults := [],
    recommendedDatasets := [] }

/-- **C6, counterexample.**  `toggleDatasetInList` has no guard on
library membership: toggling the id `"x"` — which belongs to no library
record — into list `"l1"` adds it, so the call is not a no-op and the
membership set now holds a surrogate id of no current library record. -/
theorem C6_counterexample :
    (toggleDatasetInList "x" "l1" toggleFixture).customLists
        = [⟨"l1", "L", ["x"], 0⟩] ∧
      (toggleDatasetInList "x" "l1" toggleFixture).customLists
        ≠ toggleFixture.customLists ∧
      (toggleDatasetInList "x" "l1" toggleFixture).savedDatasets = [] := by
  refine ⟨?_, ?_, rfl⟩ <;> decide

/-- The list-membership invariant: every id stored in a named list is
the surrogate id of a record currently in the library. -/
def listsInvariant (st : AppState) : Prop :=
  ∀ l ∈ st.customLists, ∀ did ∈ l.datasetIds,
    did ∈ st.savedDatasets.map (fun d => d.id)

/-- **C6, amended.**  The invariant that lists reference only library
records is preserved by `handleRemove` (which prunes the removed id from
every list) and by `toggleDatasetInList` applied to an id presently in
the library; toggling an id that is not in the library is *not* a no-op
and can break the invariant. -/
theorem C6_lists_invariant_preserved (st : AppState) (hinv : listsInvariant st) :
    (∀ id, listsInvariant (handleRemove id st)) ∧
      (∀ datasetId listId,
        datasetId ∈ st.savedDatasets.map (fun d => d.id) →
        listsInvariant (toggleDatasetInList datasetId listId st)) := by
  constructor
  · intro id l hl did hdid
    simp only [handleRemove, List.mem_map, List.mem_filter] at hl hdid ⊢
    obtain ⟨l₀, hl₀, rfl⟩ := hl
    simp only [List.mem_filter, decide_eq_true_eq] at hdid
    obtain ⟨hdid₀, hne⟩ := hdid
    have := hinv l₀ hl₀ did hdid₀
    simp only [List.mem_map] at this
    obtain ⟨d, hd, rfl⟩ := this
    exact ⟨d, ⟨hd, by simpa using hne⟩, rfl⟩
  · intro datasetId listId hmem l hl did hdid
    simp only [toggleDatasetInList, List.mem_map] at hl
    obtain ⟨l₀, hl₀, rfl⟩ := hl
    by_cases hid : l₀.id = listId
    · rw [if_pos hid] at hdid
      dsimp only at hdid
      by_cases hc : l₀.datasetIds.contains datasetId
      · rw [if_pos hc] at hdid
        exact hinv l₀ hl₀ did (List.mem_of_mem_filter hdid)
      · rw [if_neg hc] at hdid
        rw [List.mem_append] at hdid
        rcases hdid with h | h
        · exact hinv l₀ hl₀ did h
        · simp only [List.mem_singleton] at h
          subst h
          exact hmem
    · rw [if_neg hid] at hdid
      exact hinv l₀ hl₀ did hdid

/-- Witness for C6's amended theorem: from a state holding
`sampleDataset` and a list containing its id, removal and a toggle of
the present id both preserve the invariant. -/
theorem C6_lists_invariant_preserved_witness :
    listsInvariant (handleRemove "r1"
      { savedDatasets := [sampleDataset],
        customLists := [⟨"l1", "L", ["r1"], 0⟩],
        selectedForComparisonLinks := [], searchResults := [],
        recommendedDatasets := [] }) ∧
      listsInvariant (toggleDatasetInList "r1" "l1"
        { savedDatasets := [sampleDataset],
          customLists := [⟨"l1", "L", ["r1"], 0⟩],
          selectedForComparisonLinks := [], searchResults := [],
          recommendedDatasets := [] }) := by
  have h := C6_lists_invariant_preserved
    { savedDatasets := [sampleDataset],
      customLists := [⟨"l1", "L", ["r1"], 0⟩],
      selectedForComparisonLinks := [], searchResults := [],
      recommendedDatasets := [] }
    (by intro l hl did hdid; simp at hl; subst hl; simp at hdid; simp [hdid, sampleDataset])
  exact ⟨h.1 "r1", h.2 "r1" "l1" (by simp [sampleDataset])⟩

/-- Membership is unchanged by first-occurrence deduplication. -/
theorem mem_dedupFirst (k : String) :
    ∀ l : List String, k ∈ dedupFirst l ↔ k ∈ l := by
  intro l
  induction l with
  | nil => simp [dedupFirst]
  | cons x xs ih =>
    by_cases hk : k = x
    · subst hk
      simp [dedupFirst]
    · simp only [dedupFirst, List.mem_cons, List.mem_filter,
        decide_eq_true_eq, ih]
      tauto

/-- **C4, counterexample.**  With selection `["a"]` and visible keys
`["a", "b"]` (a partially selected view), applying select-all-visible
twice empties the selection instead of restoring `["a"]`: the first call
adds `"b"`, after which all visible keys are selected, so the second
call removes both. -/
theorem C4_counterexample :
    toggleSelectAllVisible ["a", "b"]
        (toggleSelectAllVisible ["a", "b"] ["a"]) = [] ∧
      ("a" : String) ∈ (["a"] : List String) := by
  constructor <;> decide

/-- **C4, amended.**  Applying select-all-visible twice restores the
selection (as a set of keys) provided the starting selection contains
either every visible key or none of them; in the mixed case the
partially selected visible keys are lost. -/
theorem C4_select_all_twice (visible prev : List String)
    (h : (∀ v ∈ visible, v ∈ prev) ∨ (∀ v ∈ visible, v ∉ prev)) :
    ∀ k, k ∈ toggleSelectAllVisible visible
        (toggleSelectAllVisible visible prev) ↔ k ∈ prev := by
  intro k
  match visible, h with
  | [], _ =>
    simp [toggleSelectAllVisible, mem_dedupFirst]
  | v :: vs, Or.inl hsub =>
    have hcond₁ : (v :: vs).length > 0 ∧
        ((v :: vs).all (fun link => prev.contains link) = true) := by
      refine ⟨by simp, ?_⟩
      simp only [List.all_eq_true]
      intro x hx
      simpa using hsub x hx
    have h1 : toggleSelectAllVisible (v :: vs) prev
        = prev.filter (fun link => ¬ (v :: vs).contains link) := by
      rw [toggleSelectAllVisible, if_pos hcond₁]
    have hfilt : ∀ x, x ∈ prev.filter
        (fun link => ¬ (v :: vs).contains link) ↔
        x ∈ prev ∧ x ∉ (v :: vs) := by
      intro x
      simp [List.mem_filter]
    have hcond₂ : ¬ ((v :: vs).length > 0 ∧
        ((v :: vs).all (fun link =>
          (prev.filter (fun link => ¬ (v :: vs).contains link)).contains link)
            = true)) := by
      rintro ⟨-, hall⟩
      simp only [List.all_eq_true] at hall
      have hv := hall v (by simp)
      simp at hv
    have h2 : toggleSelectAllVisible (v :: vs)
        (prev.filter (fun link => ¬ (v :: vs).contains link))
        = dedupFirst (prev.filter (fun link => ¬ (v :: vs).contains link)
            ++ (v :: vs)) := by
      rw [toggleSelectAllVisible, if_neg hcond₂]
    rw [h1, h2, mem_dedupFirst, List.mem_append, hfilt]
    by_cases hk : k ∈ (v :: vs)
    · simp [hk, hsub k hk]
    · simp [hk]
  | v :: vs, Or.inr hdisj =>
    have hcond₁ : ¬ ((v :: vs).length > 0 ∧
        ((v :: vs).all (fun link => prev.contains link) = true)) := by
      rintro ⟨-, hall⟩
      simp only [List.all_eq_true] at hall
      have hv := hall v (by simp)
      exact hdisj v (by simp) (by simpa using hv)
    have h1 : toggleSelectAllVisible (v :: vs) prev
        = dedupFirst (prev ++ v :: vs) := by
      rw [toggleSelectAllVisible, if_neg hcond₁]
    have hcond₂ : (v :: vs).length > 0 ∧
        ((v :: vs).all (fun link =>
          (dedupFirst (prev ++ v :: vs)).contains link) = true) := by
      refine ⟨by simp, ?_⟩
      simp only [List.all_eq_true]
      intro x hx
      have hxmem : x ∈ dedupFirst (prev ++ v :: vs) := by
        rw [mem_dedupFirst]
        exact List.mem_append_right _ hx
      simpa using hxmem
    have h2 : toggleSelectAllVisible (v :: vs) (dedupFirst (prev ++ v :: vs))
        = (dedupFirst (prev ++ v :: vs)).filter
            (fun link => ¬ (v :: vs).contains link) := by
      rw [toggleSelectAllVisible, if_pos hcond₂]
    have hfilt : ∀ x, x ∈ (dedupFirst (prev ++ v :: vs)).filter
        (fun link => ¬ (v :: vs).contains link) ↔
        (x ∈ prev ∨ x ∈ (v :: vs)) ∧ x ∉ (v :: vs) := by
      intro x
      simp [List.mem_filter, mem_dedupFirst]
    rw [h1, h2, hfilt]
    by_cases hk : k ∈ (v :: vs)
    · simp [hk, hdisj k hk]
    · simp [hk]

/-- Witness for C4's amended theorem at a concrete input: with every
visible key (`["a"]`) already selected in `["a", "b"]`, double
select-all keeps `"b"` selected. -/
theorem C4_select_all_twice_witness :
    (("b" : String) ∈ toggleSelectAllVisible ["a"]
        (toggleSelectAllVisible ["a"] ["a", "b"])) ↔
      ("b" : String) ∈ (["a", "b"] : List String) :=
  C4_select_all_twice ["a"] ["a", "b"] (Or.inl (by decide)) "b"

/-- **C10.**  Comparison resolution: a selected natural key is looked up
with the saved library taking precedence over the search results, which
take precedence over the curated feed; a key with no live record in any
collection resolves to `none`, and the comparison sequence is the
selection filtered through this resolution (so unmatched keys are
silently omitted, producing neither an error nor a hole). -/
theorem C10_comparison_resolution (st : AppState) (link : String) :
    ((∃ d ∈ st.savedDatasets, d.paperLink = link) →
      ∃ d ∈ st.savedDatasets,
        allAvailableDatasetsByLink st link = some d) ∧
    ((∀ d ∈ st.savedDatasets, d.paperLink ≠ link) →
      (∃ d ∈ st.searchResults, d.paperLink = link) →
      ∃ d ∈ st.searchResults,
        allAvailableDatasetsByLink st link = some d) ∧
    ((∀ d ∈ st.savedDatasets, d.paperLink ≠ link) →
      (∀ d ∈ st.searchResults, d.paperLink ≠ link) →
      (∃ d ∈ st.recommendedDatasets, d.paperLink = link) →
      ∃ d ∈ st.recommendedDatasets,
        allAvailableDatasetsByLink st link = some d) ∧
    ((∀ d ∈ st.recommendedDatasets ++ st.searchResults ++ st.savedDatasets,
        d.paperLink ≠ link) →
      allAvailableDatasetsByLink st link = none) ∧
    comparisonItems st
      = st.selectedForComparisonLinks.filterMap
          (allAvailableDatasetsByLink st) := by
  have hsplit : (st.recommendedDatasets ++ st.searchResults ++
      st.savedDatasets).reverse
      = st.savedDatasets.reverse ++
        (st.searchResults.reverse ++ st.recommendedDatasets.reverse) := by
    simp [List.reverse_append]
  refine ⟨?_, ?_, ?_, ?_, rfl⟩
  · rintro ⟨d, hd, hk⟩
    rw [allAvailableDatasetsByLink, hsplit]
    have hsome : (st.savedDatasets.reverse.find?
        (fun d => d.paperLink = link)).isSome := by
      rw [List.find?_isSome]
      exact ⟨d, by simpa using hd, by simp [hk]⟩
    obtain ⟨d', hd'⟩ := Option.isSome_iff_exists.mp hsome
    refine ⟨d', ?_, ?_⟩
    · simpa using List.mem_of_find?_eq_some hd'
    · rw [List.find?_append, hd']
      rfl
  · rintro hnone ⟨d, hd, hk⟩
    rw [allAvailableDatasetsByLink, hsplit]
    have hfail : st.savedDatasets.reverse.find?
        (fun d => d.paperLink = link) = none := by
      rw [List.find?_eq_none]
      intro x hx
      simpa using hnone x (by simpa using hx)
    have hsome : (st.searchResults.reverse.find?
        (fun d => d.paperLink = link)).isSome := by
      rw [List.find?_isSome]
      exact ⟨d, by simpa using hd, by simp [hk]⟩
    obtain ⟨d', hd'⟩ := Option.isSome_iff_exists.mp hsome
    refine ⟨d', ?_, ?_⟩
    · simpa using List.mem_of_find?_eq_some hd'
    · rw [List.find?_append, hfail, Option.none_or, List.find?_append,
        hd']
      rfl
  · rintro hnone₁ hnone₂ ⟨d, hd, hk⟩
    rw [allAvailableDatasetsByLink, hsplit]
    have hfail₁ : st.savedDatasets.reverse.find?
        (fun d => d.paperLink = link) = none := by
      rw [List.find?_eq_none]
      intro x hx
      simpa using hnone₁ x (by simpa using hx)
    have hfail₂ : st.searchResults.reverse.find?
        (fun d => d.paperLink = link) = none := by
      rw [List.find?_eq_none]
      intro x hx
      simpa using hnone₂ x (by simpa using hx)
    have hsome : (st.recommendedDatasets.reverse.find?
        (fun d => d.paperLink = link)).isSome := by
      rw [List.find?_isSome]
      exact ⟨d, by simpa using hd, by simp [hk]⟩
    obtain ⟨d', hd'⟩ := Option.isSome_iff_exists.mp hsome
    refine ⟨d', ?_, ?_⟩
    · simpa using List.mem_of_find?_eq_some hd'
    · rw [List.find?_append, hfail₁, Option.none_or, List.find?_append,
        hfail₂, Option.none_or, hd']
  · intro hnone
    rw [allAvailableDatasetsByLink, List.find?_eq_none]
    intro x hx
    rw [List.mem_reverse] at hx
    simpa using hnone x hx

/-- The state fixture for C10's witness: records with key `"p"` exist in
both the library (`sampleDataset`) and the search results, with
different titles; resolution must pick the library's copy. -/
def precedenceFixture : AppState :=
  { savedDatasets := [sampleDataset],
    customLists := [],
    selectedForComparisonLinks := ["p"],
    searchResults := [{ sampleDataset with id := "s1", title := "Other title" }],
    recommendedDatasets := [] }

/-- Witness for C10 at the concrete fixture: the key `"p"` resolves to a
library record. -/
theorem C10_comparison_resolution_witness :
    ∃ d ∈ precedenceFixture.savedDatasets,
      allAvailableDatasetsByLink precedenceFixture "p" = some d :=
  (C10_comparison_resolution precedenceFixture "p").1
    ⟨sampleDataset, by simp [precedenceFixture], by decide⟩

/-- With an empty filter query, `filteredAndSorted` only sorts. -/
theorem filteredAndSorted_no_query (cfg : SortConfig)
    (items : List BenchmarkDataset) :
    filteredAndSorted "" cfg items
      = jsSort (filteredAndSortedCmp cfg) items := by
  rw [filteredAndSorted, if_neg (by decide)]

/-- With an empty filter query, `filterAndSortItems` only sorts. -/
theorem filterAndSortItems_no_query (cfg : SortConfig)
    (items : List BenchmarkDataset) :
    filterAndSortItems "" cfg items
      = jsSort (filterAndSortItemsCmp cfg) items := by
  rw [filterAndSortItems, if_neg (by decide)]

/-- Stable sort of a three-element list already in order: the first two
elements compare equal and the third compares after both, so every
element stays in place. -/
theorem jsSort_three_in_order {α : Type} (cmp : α → α → Int) (a b c : α)
    (h1 : cmp b a = 0) (h2 : cmp c a = 1) (h3 : cmp c b = 1) :
    jsSort cmp [a, b, c] = [a, b, c] := by
  simp [jsSort, insertStable, h1, h2, h3]

/-- **C8, counterexample.**  The active view (`filteredAndSorted`)
compares year strings lexically after lower-casing, not as parsed
integers: ascending sort of years `"999"` and `"1000"` puts `"1000"`
first (because `'1' < '9'`), although `parseInt` ordering — which the
claim requires, and which the older `filterAndSortItems` implements —
puts `999` first. -/
theorem C8_counterexample :
    (filteredAndSorted "" ⟨SortField.year, SortOrder.asc⟩
        [{ sampleDataset with id := "a", year := some "999" },
         { sampleDataset with id := "b", year := some "1000" }]).map
        (fun d => d.id) = ["b", "a"] ∧
      jsParseIntOr0 "999" < jsParseIntOr0 "1000" ∧
      (filterAndSortItems "" ⟨SortField.year, SortOrder.asc⟩
        [{ sampleDataset with id := "a", year := some "999" },
         { sampleDataset with id := "b", year := some "1000" }]).map
        (fun d => d.id) = ["a", "b"] := by
  refine ⟨by decide, by decide, by decide⟩

/-- **C8, amended.**  Sorting by year is stable, and on the spec's
example (years `["2020", "2020", "2019"]` in input order, descending)
both implementations keep the two 2020 records in their original
relative order followed by the 2019 record; but only the older
`filterAndSortItems` parses years as integers (non-numeric treated
as 0) — the active `filteredAndSorted` compares the year strings
lexically (case-insensitively), which agrees with integer order only
for equal-length numeric years such as these. -/
theorem C8_year_sort_example (a b c : BenchmarkDataset)
    (ha : a.year = some "2020") (hb : b.year = some "2020")
    (hc : c.year = some "2019") :
    filteredAndSorted "" ⟨SortField.year, SortOrder.desc⟩ [a, b, c]
        = [a, b, c] ∧
      filterAndSortItems "" ⟨SortField.year, SortOrder.desc⟩ [a, b, c]
        = [a, b, c] := by
  constructor
  · rw [filteredAndSorted_no_query]
    refine jsSort_three_in_order _ a b c ?_ ?_ ?_
    · simp only [filteredAndSortedCmp, sortFieldValue, ha, hb,
        Option.getD_some]
      decide
    · simp only [filteredAndSortedCmp, sortFieldValue, ha, hc,
        Option.getD_some]
      decide
    · simp only [filteredAndSortedCmp, sortFieldValue, hb, hc,
        Option.getD_some]
      decide
  · rw [filterAndSortItems_no_query]
    refine jsSort_three_in_order _ a b c ?_ ?_ ?_
    · simp only [filterAndSortItemsCmp, sortFieldValue, ha, hb,
        Option.getD_some]
      decide
    · simp only [filterAndSortItemsCmp, sortFieldValue, ha, hc,
        Option.getD_some]
      decide
    · simp only [filterAndSortItemsCmp, sortFieldValue, hb, hc,
        Option.getD_some]
      decide

/-- Witness for C8's amended theorem at concrete records carrying the
example years. -/
theorem C8_year_sort_example_witness :
    filteredAndSorted "" ⟨SortField.year, SortOrder.desc⟩
        [{ sampleDataset with id := "a", year := some "2020" },
         { sampleDataset with id := "b", year := some "2020" },
         { sampleDataset with id := "c", year := some "2019" }]
      = [{ sampleDataset with id := "a", year := some "2020" },
         { sampleDataset with id := "b", year := some "2020" },
         { sampleDataset with id := "c", year := some "2019" }] ∧
    filterAndSortItems "" ⟨SortField.year, SortOrder.desc⟩
        [{ sampleDataset with id := "a", year := some "2020" },
         { sampleDataset with id := "b", year := some "2020" },
         { sampleDataset with id := "c", year := some "2019" }]
      = [{ sampleDataset with id := "a", year := some "2020" },
         { sampleDataset with id := "b", year := some "2020" },
         { sampleDataset with id := "c", year := some "2019" }] :=
  C8_year_sort_example _ _ _ rfl rfl rfl

/-! ## Natural-key uniqueness machinery (C1) -/

/-- The natural keys (paper links) of a record list, in order. -/
def libKeys (lib : List BenchmarkDataset) : List String :=
  lib.map (fun d => d.paperLink)

/-- The library-mutating operations C1 quantifies over. -/
inductive LibOp where
  | save (fresh : String) (dataset : BenchmarkDataset)
  | saveAll (results : List BenchmarkDataset)
  | importCSV (mint : Nat → String) (text : String)
  | importJSON (mint : Nat → String) (data : List JsonEntry)

/-- Apply one operation to the saved library. -/
def applyOp (lib : List BenchmarkDataset) : LibOp → List BenchmarkDataset
  | LibOp.save fresh d => handleSave fresh lib d
  | LibOp.saveAll results => handleSaveAll results lib
  | LibOp.importCSV mint text => handleImport mint text lib
  | LibOp.importJSON mint data => handleImportJSON mint data lib

/-- The side condition under which an operation cannot introduce
duplicates: its own batch — the search results of a save-all, or the
entries a file would contribute against an empty library — carries
pairwise-distinct natural keys.  A single save always satisfies it. -/
def opBatchDistinct : LibOp → Prop
  | LibOp.save _ _ => True
  | LibOp.saveAll results => (libKeys results).Nodup
  | LibOp.importCSV mint text =>
    (libKeys (handleImportRows mint [] 1
      (((splitCh '\n' text.data).map String.mk).tail))).Nodup
  | LibOp.importJSON mint data =>
    (libKeys (importJSONEntries mint [] 0 data)).Nodup

/-- Enlarging the skip set of the CSV row loop only removes rows. -/
theorem handleImportRows_sublist (mint : Nat → String)
    (ex : List String) :
    ∀ (i : Nat) (lines : List String),
      List.Sublist (handleImportRows mint ex i lines)
        (handleImportRows mint [] i lines) := by
  intro i lines
  induction lines generalizing i with
  | nil => simp [handleImportRows]
  | cons line rest ih =>
    rw [handleImportRows, handleImportRows]
    by_cases hblank : trimStr line = ""
    · rw [if_pos hblank, if_pos hblank]
      exact ih (i + 1)
    · rw [if_neg hblank, if_neg hblank]
      by_cases hlen : (parseCSVLine line).length < 5
      · rw [if_pos hlen, if_pos hlen]
        exact ih (i + 1)
      · rw [if_neg hlen, if_neg hlen,
          if_neg (by simp : ¬ ([] : List String).contains
            ((parseCSVLine line).getD 4 "") = true)]
        by_cases hex : ex.contains ((parseCSVLine line).getD 4 "")
        · rw [if_pos hex]
          exact (ih (i + 1)).cons _
        · rw [if_neg hex]
          exact (ih (i + 1)).cons₂ _

/-- Every record produced by the CSV row loop has a key outside the
skip set. -/
theorem handleImportRows_keys_not_in (mint : Nat → String)
    (ex : List String) :
    ∀ (i : Nat) (lines : List String),
      ∀ r ∈ handleImportRows mint ex i lines, r.paperLink ∉ ex := by
  intro i lines
  induction lines generalizing i with
  | nil => simp [handleImportRows]
  | cons line rest ih =>
    rw [handleImportRows]
    by_cases hblank : trimStr line = ""
    · rw [if_pos hblank]
      exact ih (i + 1)
    · rw [if_neg hblank]
      by_cases hlen : (parseCSVLine line).length < 5
      · rw [if_pos hlen]
        exact ih (i + 1)
      · rw [if_neg hlen]
        by_cases hex : ex.contains ((parseCSVLine line).getD 4 "")
        · rw [if_pos hex]
          exact ih (i + 1)
        · rw [if_neg hex]
          intro r hr
          rcases List.mem_cons.mp hr with rfl | hr'
          · simp only [mkImportedRecord]
            intro hmem
            exact hex (by simpa using hmem)
          · exact ih (i + 1) r hr'

/-- Enlarging the skip set of the JSON entry loop only removes
entries. -/
theorem importJSONEntries_sublist (mint : Nat → String)
    (ex : List String) :
    ∀ (i : Nat) (data : List JsonEntry),
      List.Sublist (importJSONEntries mint ex i data)
        (importJSONEntries mint [] i data) := by
  intro i data
  induction data generalizing i with
  | nil => simp [importJSONEntries]
  | cons e rest ih =>
    rw [importJSONEntries, importJSONEntries]
    match ht : e.title, hl : e.paperLink with
    | some t, some link =>
      dsimp only
      by_cases hempty : t = "" ∨ link = ""
      · rw [if_pos hempty, if_pos hempty]
        exact ih (i + 1)
      · rw [if_neg hempty, if_neg hempty,
          if_neg (by simp : ¬ ([] : List String).contains link = true)]
        by_cases hex : ex.contains link
        · rw [if_pos hex]
          exact (ih (i + 1)).cons _
        · rw [if_neg hex]
          exact (ih (i + 1)).cons₂ _
    | some _, none => exact ih (i + 1)
    | none, _ => exact ih (i + 1)

/-- Every record produced by the JSON entry loop has a key outside the
skip set. -/
theorem importJSONEntries_keys_not_in (mint : Nat → String)
    (ex : List String) :
    ∀ (i : Nat) (data : List JsonEntry),
      ∀ r ∈ importJSONEntries mint ex i data, r.paperLink ∉ ex := by
  intro i data
  induction data generalizing i with
  | nil => simp [importJSONEntries]
  | cons e rest ih =>
    rw [importJSONEntries]
    match ht : e.title, hl : e.paperLink with
    | some t, some link =>
      dsimp only
      by_cases hempty : t = "" ∨ link = ""
      · rw [if_pos hempty]
        exact ih (i + 1)
      · rw [if_neg hempty]
        by_cases hex : ex.contains link
        · rw [if_pos hex]
          exact ih (i + 1)
        · rw [if_neg hex]
          intro r hr
          rcases List.mem_cons.mp hr with rfl | hr'
          · intro hmem
            exact hex (by simpa using hmem)
          · exact ih (i + 1) r hr'
    | some _, none => exact ih (i + 1)
    | none, _ => exact ih (i + 1)

/-- One operation preserves key uniqueness, given its batch side
condition. -/
theorem applyOp_preserves_unique (lib : List BenchmarkDataset) (op : LibOp)
    (hlib : (libKeys lib).Nodup) (hop : opBatchDistinct op) :
    (libKeys (applyOp lib op)).Nodup := by
  match op with
  | LibOp.save fresh d =>
    rw [applyOp, handleSave]
    by_cases hany : lib.any (fun x => x.paperLink = d.paperLink)
    · rw [if_pos hany]
      exact hlib
    · rw [if_neg hany]
      simp only [libKeys, List.map_append, List.map_cons, List.map_nil]
      rw [List.nodup_append]
      refine ⟨hlib, List.nodup_singleton _, ?_⟩
      intro k hk hk'
      simp only [List.mem_singleton] at hk'
      subst hk'
      simp only [libKeys, List.mem_map] at hk
      obtain ⟨x, hx, hxk⟩ := hk
      exact hany (List.any_eq_true.mpr ⟨x, hx, by simp [hxk]⟩)
  | LibOp.saveAll results =>
    rw [applyOp, handleSaveAll]
    simp only [libKeys, List.map_append]
    rw [List.nodup_append]
    refine ⟨hlib, ?_, ?_⟩
    · exact List.Nodup.sublist ((List.filter_sublist _).map _) hop
    · intro k hk hk'
      simp only [List.mem_map, List.mem_filter] at hk'
      obtain ⟨x, ⟨hx, hpred⟩, hxk⟩ := hk'
      simp only [libKeys, List.mem_map] at hk
      obtain ⟨y, hy, hyk⟩ := hk
      simp only [decide_eq_true_eq] at hpred
      exact hpred (List.any_eq_true.mpr ⟨y, hy, by simp [hyk, hxk]⟩)
  | LibOp.importCSV mint text =>
    rw [applyOp, handleImport]
    by_cases hlen :
        (((splitCh '\n' text.data).map String.mk)).length < 2
    · rw [if_pos hlen]
      exact hlib
    · rw [if_neg hlen]
      simp only [libKeys, List.map_append]
      rw [List.nodup_append]
      refine ⟨hlib, ?_, ?_⟩
      · exact List.Nodup.sublist
          ((handleImportRows_sublist mint _ 1 _).map _) hop
      · intro k hk hk'
        simp only [List.mem_map] at hk'
        obtain ⟨r, hr, hrk⟩ := hk'
        have := handleImportRows_keys_not_in mint
          (lib.map (fun d => d.paperLink)) 1 _ r hr
        subst hrk
        simp only [libKeys, List.mem_map] at hk
        exact this (by simpa [List.mem_map] using hk)
  | LibOp.importJSON mint data =>
    rw [applyOp, handleImportJSON]
    simp only [libKeys, List.map_append]
    rw [List.nodup_append]
    refine ⟨hlib, ?_, ?_⟩
    · exact List.Nodup.sublist
        ((importJSONEntries_sublist mint _ 0 _).map _) hop
    · intro k hk hk'
      simp only [List.mem_map] at hk'
      obtain ⟨r, hr, hrk⟩ := hk'
      have := importJSONEntries_keys_not_in mint
        (lib.map (fun d => d.paperLink)) 0 _ r hr
      subst hrk
      simp only [libKeys, List.mem_map] at hk
      exact this (by simpa [List.mem_map] using hk)

/-- **C1, counterexample.**  A single JSON import whose file contains two
entries with the same natural key `"p"` (both absent from the starting
empty library) appends both: the resulting library holds two records
with equal natural key, because the importer's duplicate check consults
only the pre-import library, never the keys accepted earlier in the same
file.  (The CSV importer shares this structure.) -/
theorem C1_counterexample :
    libKeys (handleImportJSON (fun _ => "j")
        [{ title := some "A", paperLink := some "p" },
         { title := some "B", paperLink := some "p" }] [])
      = ["p", "p"] ∧
      ¬ (["p", "p"] : List String).Nodup := by
  constructor <;> decide

/-- **C1, amended.**  For every sequence of save, save-all, CSV-import
and JSON-import operations starting from a library with unique natural
keys, the library keeps unique natural keys, provided each save-all
batch and each imported file contributes pairwise-distinct keys; without
that proviso a single file with an internal duplicate breaks the
invariant. -/
theorem C1_key_uniqueness (ops : List LibOp) (lib : List BenchmarkDataset)
    (hlib : (libKeys lib).Nodup) (hops : ∀ op ∈ ops, opBatchDistinct op) :
    (libKeys (ops.foldl applyOp lib)).Nodup := by
  induction ops generalizing lib with
  | nil => exact hlib
  | cons op rest ih =>
    rw [List.foldl_cons]
    exact ih (applyOp lib op)
      (applyOp_preserves_unique lib op hlib (hops op (by simp)))
      (fun o ho => hops o (List.mem_cons_of_mem _ ho))

/-- Witness for C1's amended theorem at a concrete input: saving
`sampleDataset` and then JSON-importing a two-entry file with distinct
keys, starting from the empty library, keeps the keys unique. -/
theorem C1_key_uniqueness_witness :
    (libKeys ([LibOp.save "f" sampleDataset,
        LibOp.importJSON (fun _ => "j")
          [{ title := some "A", paperLink := some "q" },
           { title := some "B", paperLink := some "r" }]].foldl
        applyOp [])).Nodup := by
  refine C1_key_uniqueness _ [] (by decide) ?_
  intro op hop
  simp only [List.mem_cons, List.mem_singleton] at hop
  rcases hop with rfl | rfl | h
  · trivial
  · show (libKeys (importJSONEntries (fun _ => "j") [] 0 _)).Nodup
    decide
  · exact absurd h (List.not_mem_nil _)

/-! ## CSV round-trip machinery (C7) -/

/-- `intercalate` unfolding on a two-or-more-element list. -/
theorem intercalate_cons_cons {α : Type} (sep x y : List α)
    (t : List (List α)) :
    List.intercalate sep (x :: y :: t)
      = x ++ sep ++ List.intercalate sep (y :: t) := by
  simp [List.intercalate, List.intersperse]

/-- `intercalate` on a one-element list. -/
theorem intercalate_one {α : Type} (sep x : List α) :
    List.intercalate sep [x] = x := by
  simp [List.intercalate, List.intersperse]

/-- Splitting never yields the empty list of chunks. -/
theorem splitCh_ne_nil (sep : Char) : ∀ l : List Char, splitCh sep l ≠ [] := by
  intro l
  induction l with
  | nil => simp [splitCh]
  | cons c r ih =>
    rw [splitCh]
    by_cases hc : c = sep
    · simp [hc]
    · rw [if_neg hc]
      match hr : splitCh sep r with
      | [] => exact absurd hr ih
      | h :: t => simp

/-- A separator-free list splits into a single chunk. -/
theorem splitCh_of_not_mem (sep : Char) :
    ∀ l : List Char, sep ∉ l → splitCh sep l = [l] := by
  intro l
  induction l with
  | nil => simp [splitCh]
  | cons c r ih =>
    intro hmem
    have hcs : ¬ c = sep := fun h => hmem (by rw [← h]; exact List.mem_cons_self c r)
    rw [splitCh, if_neg hcs, ih (fun h => hmem (List.mem_cons_of_mem _ h))]

/-- Splitting peels off a leading separator-free chunk. -/
theorem splitCh_append (sep : Char) :
    ∀ (x r : List Char), sep ∉ x →
      splitCh sep (x ++ sep :: r) = x :: splitCh sep r := by
  intro x
  induction x with
  | nil =>
    intro r _
    simp [splitCh]
  | cons c x' ih =>
    intro r hmem
    have hcs : ¬ c = sep := fun h => hmem (by rw [← h]; exact List.mem_cons_self c x')
    rw [List.cons_append, splitCh, if_neg hcs,
      ih r (fun h => hmem (List.mem_cons_of_mem _ h))]

/-- Splitting at the separator inverts `intercalate` when no chunk
contains the separator. -/
theorem splitCh_intercalate (sep : Char) :
    ∀ (xss : List (List Char)), xss ≠ [] → (∀ x ∈ xss, sep ∉ x) →
      splitCh sep (List.intercalate [sep] xss) = xss := by
  intro xss
  induction xss with
  | nil => intro h; exact absurd rfl h
  | cons x t ih =>
    intro _ hfree
    match t with
    | [] =>
      rw [intercalate_one]
      exact splitCh_of_not_mem sep x (hfree x (by simp))
    | y :: t' =>
      rw [intercalate_cons_cons, List.append_assoc, List.singleton_append]
      rw [splitCh_append sep x _ (hfree x (by simp))]
      rw [ih (by simp) (fun z hz => hfree z (List.mem_cons_of_mem _ hz))]

/-- Doubling quotes introduces no new characters. -/
theorem mem_dq (c : Char) : ∀ l : List Char, c ∈ dq l → c ∈ l := by
  intro l
  induction l with
  | nil => simp [dq]
  | cons x r ih =>
    by_cases hx : x = '"'
    · subst hx
      rw [dq, if_pos rfl]
      intro h
      rcases List.mem_cons.mp h with rfl | h'
      · exact List.mem_cons_self _ _
      · rcases List.mem_cons.mp h' with rfl | h''
        · exact List.mem_cons_self _ _
        · exact List.mem_cons_of_mem _ (ih h'')
    · rw [dq, if_neg hx]
      intro h
      rcases List.mem_cons.mp h with rfl | h'
      · exact List.mem_cons_self _ _
      · exact List.mem_cons_of_mem _ (ih h')

/-- An escaped field consists of quotes and the field's characters. -/
theorem mem_escapeCSV (c : Char) (f : String) :
    c ∈ escapeCSV f → c = '"' ∨ c ∈ f.data := by
  intro h
  rw [escapeCSV] at h
  rcases List.mem_cons.mp h with rfl | h'
  · exact Or.inl rfl
  · rcases List.mem_append.mp h' with h'' | h''
    · exact Or.inr (mem_dq c _ h'')
    · simp at h''
      exact Or.inl h''

/-- A character of an intercalation comes from the separator or from
one of the chunks. -/
theorem mem_intercalate {α : Type} (c : α) (sep : List α) :
    ∀ xss : List (List α), c ∈ List.intercalate sep xss →
      c ∈ sep ∨ ∃ xs ∈ xss, c ∈ xs := by
  intro xss
  induction xss with
  | nil => simp [List.intercalate]
  | cons x t ih =>
    match t with
    | [] =>
      rw [intercalate_one]
      intro h
      exact Or.inr ⟨x, by simp, h⟩
    | y :: t' =>
      rw [intercalate_cons_cons]
      intro h
      rcases List.mem_append.mp h with h' | h'
      · rcases List.mem_append.mp h' with h'' | h''
        · exact Or.inr ⟨x, by simp, h''⟩
        · exact Or.inl h''
      · rcases ih h' with h'' | ⟨xs, hxs, hc⟩
        · exact Or.inl h''
        · exact Or.inr ⟨xs, List.mem_cons_of_mem _ hxs, hc⟩

/-- Step lemma: the parser on the empty input emits the current field. -/
theorem parse_nil (b : Bool) (cur : List Char) :
    parseCSVChars [] b cur = [cur] := by
  rw [parseCSVChars]

/-- Step lemma: a doubled quote inside quotes. -/
theorem parse_true_qq (rest cur : List Char) :
    parseCSVChars ('"' :: '"' :: rest) true cur
      = parseCSVChars rest true (cur ++ ['"']) := by
  rw [parseCSVChars, if_pos rfl, if_pos rfl]

/-- Step lemma: a closing quote at the end of the line. -/
theorem parse_true_qend (cur : List Char) :
    parseCSVChars ['"'] true cur = [cur] := by
  rw [parseCSVChars, if_pos rfl]

/-- Step lemma: a closing quote followed by a non-quote character. -/
theorem parse_true_qother (c : Char) (rest cur : List Char) (h : c ≠ '"') :
    parseCSVChars ('"' :: c :: rest) true cur
      = parseCSVChars (c :: rest) false cur := by
  rw [parseCSVChars, if_pos rfl, if_neg h]

/-- Step lemma: an ordinary character inside quotes is accumulated. -/
theorem parse_true_other (c : Char) (rest cur : List Char) (h : c ≠ '"') :
    parseCSVChars (c :: rest) true cur
      = parseCSVChars rest true (cur ++ [c]) := by
  match rest with
  | [] =>
    rw [parse_nil, parseCSVChars, if_neg h]
    by_cases hc : c = ','
    · rw [if_neg (by simp [hc])]
    · rw [if_neg (by simp [hc])]
  | c2 :: rest' =>
    rw [parseCSVChars, if_neg h]

/-- Step lemma: an opening quote outside quotes. -/
theorem parse_false_q (rest cur : List Char) :
    parseCSVChars ('"' :: rest) false cur = parseCSVChars rest true cur := by
  match rest with
  | [] => rw [parse_nil, parseCSVChars, if_pos rfl]
  | c2 :: rest' => rw [parseCSVChars, if_pos rfl]

/-- Step lemma: an unquoted comma ends the current field. -/
theorem parse_false_comma (rest cur : List Char) :
    parseCSVChars (',' :: rest) false cur
      = cur :: parseCSVChars rest false [] := by
  match rest with
  | [] =>
    rw [parse_nil, parseCSVChars, if_neg (by decide), if_pos (by simp)]
  | c2 :: rest' =>
    rw [parseCSVChars, if_neg (by decide), if_pos rfl]

/-- Step lemma: an ordinary character outside quotes is accumulated. -/
theorem parse_false_other (c : Char) (rest cur : List Char)
    (hq : c ≠ '"') (hc : c ≠ ',') :
    parseCSVChars (c :: rest) false cur
      = parseCSVChars rest false (cur ++ [c]) := by
  match rest with
  | [] =>
    rw [parse_nil, parseCSVChars, if_neg hq, if_neg (by simp [hc])]
  | c2 :: rest' =>
    rw [parseCSVChars, if_neg hq, if_neg hc]

/-- Parsing a quoted field body: inside quotes, the doubled-quote image
of the field accumulates back to the field itself, and the closing quote
(not itself followed by a quote) leaves quoted mode. -/
theorem parseCSVChars_quoted (f : List Char) :
    ∀ (rest cur : List Char), rest.head? ≠ some '"' →
      parseCSVChars (dq f ++ '"' :: rest) true cur
        = parseCSVChars rest false (cur ++ f) := by
  induction f with
  | nil =>
    intro rest cur hrest
    rw [dq, List.nil_append, List.append_nil]
    match rest with
    | [] => rw [parse_true_qend, parse_nil]
    | c :: r =>
      have hc : c ≠ '"' := by
        intro h
        exact hrest (by rw [h]; rfl)
      exact parse_true_qother c r cur hc
  | cons c f' ih =>
    intro rest cur hrest
    by_cases hc : c = '"'
    · subst hc
      rw [dq, if_pos rfl, List.cons_append, List.cons_append, parse_true_qq]
      rw [ih rest (cur ++ ['"']) hrest, List.append_assoc]
      rfl
    · rw [dq, if_neg hc, List.cons_append, parse_true_other c _ cur hc]
      rw [ih rest (cur ++ [c]) hrest, List.append_assoc]
      rfl

/-- Parsing the comma-joined escaped fields of a row recovers exactly
the field strings. -/
theorem parseCSVChars_fields :
    ∀ fs : List String, fs ≠ [] →
      parseCSVChars (List.intercalate [','] (fs.map (fun f => escapeCSV f)))
          false []
        = fs.map (fun f => f.data) := by
  intro fs
  induction fs with
  | nil => intro h; exact absurd rfl h
  | cons f t ih =>
    intro _
    match t with
    | [] =>
      simp only [List.map_cons, List.map_nil, intercalate_one]
      rw [escapeCSV, parse_false_q]
      rw [show dq f.data ++ ['"'] = dq f.data ++ '"' :: [] from rfl]
      rw [parseCSVChars_quoted f.data [] [] (by simp)]
      rw [parse_nil]
      simp
    | g :: t' =>
      simp only [List.map_cons]
      rw [intercalate_cons_cons, escapeCSV]
      simp only [List.cons_append, List.append_assoc, List.singleton_append]
      rw [parse_false_q]
      rw [parseCSVChars_quoted f.data _ [] (by simp)]
      simp only [List.nil_append]
      rw [parse_false_comma]
      rw [show List.intercalate [',']
          (escapeCSV g :: List.map (fun f => escapeCSV f) t')
        = List.intercalate [','] ((g :: t').map (fun f => escapeCSV f)) from by
          simp]
      rw [ih (by simp)]
      simp

/-- The nine exported cells of a record, in column order. -/
def csvFields (d : BenchmarkDataset) : List String :=
  [d.title, d.source, joinAuthors d.authors, d.year.getD "", d.paperLink,
   d.githubLink.getD "", d.itemCount.getD "", d.specs.getD "",
   d.description]

/-- Parsing an exported row recovers the nine cells. -/
theorem parseCSVLine_rowOfChars (d : BenchmarkDataset) :
    parseCSVLine (String.mk (rowOfChars d)) = csvFields d := by
  have hrow : rowOfChars d
      = List.intercalate [','] ((csvFields d).map (fun f => escapeCSV f)) := rfl
  rw [parseCSVLine]
  show (parseCSVChars (rowOfChars d) false []).map String.mk = csvFields d
  rw [hrow, parseCSVChars_fields (csvFields d) (by simp [csvFields])]
  rw [List.map_map]
  exact List.map_id'' (fun _ => rfl) _

/-- `trim` drops a leading space. -/
theorem trim_cons_space (l : List Char) :
    trimStr (String.mk (' ' :: l)) = trimStr (String.mk l) := by
  simp [trimStr, List.dropWhile_cons, isJsWs]

/-- `trim` of the raw data of a string is `trim` of the string. -/
theorem trim_mk_data (s : String) : trimStr (String.mk s.data) = trimStr s :=
  rfl

/-- Splitting the `", "`-joined author list at commas yields the first
author followed by the remaining authors, each with the separator's
space still attached. -/
theorem splitCh_join_authors :
    ∀ (t : List String) (a : String), ',' ∉ a.data →
      (∀ x ∈ t, ',' ∉ x.data) →
      splitCh ',' (List.intercalate [',', ' '] ((a :: t).map String.data))
        = a.data :: t.map (fun x => ' ' :: x.data) := by
  intro t
  induction t with
  | nil =>
    intro a ha _
    rw [List.map_cons, List.map_nil, intercalate_one]
    rw [splitCh_of_not_mem ',' a.data ha]
    rfl
  | cons b t' ih =>
    intro a ha hall
    simp only [List.map_cons]
    rw [intercalate_cons_cons]
    simp only [List.append_assoc, List.cons_append, List.nil_append]
    rw [splitCh_append ',' a.data _ ha]
    have ihb := ih b (hall b (by simp)) (fun x hx => hall x (by simp [hx]))
    simp only [List.map_cons] at ihb
    rw [show splitCh ','
        (' ' :: List.intercalate [',', ' ']
          (b.data :: List.map String.data t'))
      = (' ' :: b.data) :: t'.map (fun x => ' ' :: x.data) from by
        rw [splitCh, if_neg (by decide), ihb]]

/-- Re-splitting the joined author cell and trimming recovers the author
list, provided each author is nonempty, trim-stable, and comma-free. -/
theorem parseAuthorsCell_join (l : List String)
    (h : ∀ x ∈ l, x ≠ "" ∧ trimStr x = x ∧ ',' ∉ x.data) :
    parseAuthorsCell (joinAuthors (some l)) = l := by
  match l with
  | [] => decide
  | a :: t =>
    have hdata : (joinAuthors (some (a :: t))).data
        = List.intercalate [',', ' '] ((a :: t).map String.data) := rfl
    have hmap : (t.map (fun x => ' ' :: x.data)).map
        (fun x => trimStr (String.mk x)) = t := by
      rw [List.map_map]
      have htrim : ∀ x ∈ t,
          ((fun x => trimStr (String.mk x)) ∘ (fun x => ' ' :: x.data)) x
            = x := by
        intro x hx
        show trimStr (String.mk (' ' :: x.data)) = x
        rw [trim_cons_space, trim_mk_data]
        exact (h x (by simp [hx])).2.1
      rw [List.map_congr_left htrim]
      exact List.map_id' t
    rw [parseAuthorsCell, hdata]
    rw [splitCh_join_authors t a (h a (by simp)).2.2
      (fun x hx => (h x (by simp [hx])).2.2)]
    rw [List.map_cons, hmap]
    rw [show trimStr (String.mk a.data) = a from
      (trim_mk_data a).trans (h a (by simp)).2.1]
    rw [List.filter_eq_self.mpr ?hne]
    case hne =>
      intro x hx
      rcases List.mem_cons.mp hx with rfl | hx'
      · simpa using (h x (by simp)).1
      · simpa using (h x (by simp [hx'])).1

/-- A field value that survives the line-oriented CSV format: it
contains no line feed (the row separator) and no carriage return (eaten
by the `/\r?\n/` split). -/
def cleanField (s : String) : Prop := '\n' ∉ s.data ∧ '\r' ∉ s.data

/-- The conditions under which a record's nine exported cells read back
verbatim: all fields newline-free; a nonempty source (`|| 'Other'`
would swallow an empty one); authors present, each nonempty, trim-stable
and comma-free (the import re-splits the joined cell on commas); year,
item count and specs present (missing ones come back as `""`); and a
github link that is either absent or nonempty (`cols[5] || undefined`
turns `""` into `undefined`). -/
def cleanRecord (d : BenchmarkDataset) : Prop :=
  cleanField d.title ∧
  cleanField d.source ∧ d.source ≠ "" ∧
  d.authors ≠ none ∧
  (∀ a ∈ d.authors.getD [], a ≠ "" ∧ trimStr a = a ∧ ',' ∉ a.data ∧
    cleanField a) ∧
  d.year ≠ none ∧ cleanField (d.year.getD "") ∧
  cleanField d.paperLink ∧
  d.githubLink ≠ some "" ∧ cleanField (d.githubLink.getD "") ∧
  d.itemCount ≠ none ∧ cleanField (d.itemCount.getD "") ∧
  d.specs ≠ none ∧ cleanField (d.specs.getD "") ∧
  cleanField d.description

/-- Equality of two records on every field except the surrogate id (and
the retrieval-only grounding sources). -/
def sameFields (a b : BenchmarkDataset) : Prop :=
  a.title = b.title ∧ a.source = b.source ∧ a.paperLink = b.paperLink ∧
  a.githubLink = b.githubLink ∧ a.description = b.description ∧
  a.itemCount = b.itemCount ∧ a.specs = b.specs ∧ a.year = b.year ∧
  a.authors = b.authors

/-- The record imported from a clean record's own nine cells agrees with
the record on every field but the surrogate id. -/
theorem mkImportedRecord_roundtrip (idStr : String) (d : BenchmarkDataset)
    (h : cleanRecord d) :
    sameFields (mkImportedRecord idStr (csvFields d)) d := by
  obtain ⟨-, -, hsne, hauth_some, hauth, hyr, -, -, hgh, -, hic, -, hsp, -, -⟩
    := h
  refine ⟨rfl, ?_, rfl, ?_, rfl, ?_, ?_, ?_, ?_⟩
  · show (if (csvFields d).getD 1 "" = "" then "Other"
      else (csvFields d).getD 1 "") = d.source
    rw [show (csvFields d).getD 1 "" = d.source from rfl, if_neg hsne]
  · show (if (csvFields d).getD 5 "" = "" then none
      else some ((csvFields d).getD 5 "")) = d.githubLink
    rw [show (csvFields d).getD 5 "" = d.githubLink.getD "" from rfl]
    match hg : d.githubLink with
    | none => simp
    | some g =>
      have hgne : g ≠ "" := by
        intro hcon
        exact hgh (by rw [hg, hcon])
      rw [show (some g : Option String).getD "" = g from rfl, if_neg hgne]
  · show (csvFields d).get? 6 = d.itemCount
    match hi : d.itemCount with
    | none => exact absurd hi hic
    | some ic =>
      rw [show (csvFields d).get? 6 = some (d.itemCount.getD "") from rfl, hi]
      rfl
  · show (csvFields d).get? 7 = d.specs
    match hs : d.specs with
    | none => exact absurd hs hsp
    | some sp =>
      rw [show (csvFields d).get? 7 = some (d.specs.getD "") from rfl, hs]
      rfl
  · show some ((csvFields d).getD 3 "") = d.year
    match hy : d.year with
    | none => exact absurd hy hyr
    | some y =>
      rw [show (csvFields d).getD 3 "" = d.year.getD "" from rfl, hy]
      rfl
  · show some (parseAuthorsCell ((csvFields d).getD 2 "")) = d.authors
    match hau : d.authors with
    | none => exact absurd hau hauth_some
    | some l =>
      rw [show (csvFields d).getD 2 "" = joinAuthors d.authors from rfl, hau]
      rw [parseAuthorsCell_join l (fun x hx => by
        have := hauth x (by rw [hau]; exact hx)
        exact ⟨this.1, this.2.1, this.2.2.1⟩)]

/-- An exported row starts with a quote. -/
theorem rowOfChars_head (d : BenchmarkDataset) :
    ∃ l, rowOfChars d = '"' :: l := by
  rw [rowOfChars]
  rw [show List.intercalate [','] [escapeCSV d.title, escapeCSV d.source,
      escapeCSV (joinAuthors d.authors), escapeCSV (d.year.getD ""),
      escapeCSV d.paperLink, escapeCSV (d.githubLink.getD ""),
      escapeCSV (d.itemCount.getD ""), escapeCSV (d.specs.getD ""),
      escapeCSV d.description]
    = escapeCSV d.title ++ [','] ++ List.intercalate [',']
        [escapeCSV d.source, escapeCSV (joinAuthors d.authors),
         escapeCSV (d.year.getD ""), escapeCSV d.paperLink,
         escapeCSV (d.githubLink.getD ""), escapeCSV (d.itemCount.getD ""),
         escapeCSV (d.specs.getD ""), escapeCSV d.description]
      from intercalate_cons_cons _ _ _ _]
  rw [escapeCSV]
  simp only [List.cons_append, List.append_assoc]
  exact ⟨_, rfl⟩

/-- A string whose data starts with a quote does not trim to empty. -/
theorem trim_quote_ne_empty (l : List Char) :
    trimStr (String.mk ('"' :: l)) ≠ "" := by
  intro hcon
  have hdata : (trimStr (String.mk ('"' :: l))).data = [] := by
    rw [hcon]
  rw [trimStr] at hdata
  simp only [List.dropWhile_cons] at hdata
  rw [if_neg (by decide)] at hdata
  rw [List.reverse_eq_nil_iff] at hdata
  rw [List.dropWhile_eq_nil_iff] at hdata
  have := hdata '"' (by simp)
  simp [isJsWs] at this

/-- An exported row is not a blank line. -/
theorem row_not_blank (d : BenchmarkDataset) :
    trimStr (String.mk (rowOfChars d)) ≠ "" := by
  obtain ⟨l, hl⟩ := rowOfChars_head d
  rw [hl]
  exact trim_quote_ne_empty l

/-- No cell of a clean record contains a line feed or carriage
return. -/
theorem csvFields_clean (d : BenchmarkDataset) (h : cleanRecord d) :
    ∀ f ∈ csvFields d, '\n' ∉ f.data ∧ '\r' ∉ f.data := by
  obtain ⟨ht, hs, -, -, hauth, -, hyc, hpl, -, hghc, -, hicc, -, hspc, hdesc⟩
    := h
  intro f hf
  have hauthors : '\n' ∉ (joinAuthors d.authors).data ∧
      '\r' ∉ (joinAuthors d.authors).data := by
    constructor <;>
    · intro hmem
      rcases mem_intercalate _ _ _ hmem with hsep | ⟨xs, hxs, hc⟩
      · simp at hsep
      · simp only [List.mem_map] at hxs
        obtain ⟨a, ha, rfl⟩ := hxs
        have := (hauth a ha).2.2.2
        first
          | exact this.1 hc
          | exact this.2 hc
  simp only [csvFields, List.mem_cons, List.not_mem_nil, or_false] at hf
  rcases hf with rfl | rfl | rfl | rfl | rfl | rfl | rfl | rfl | rfl
  · exact ht
  · exact hs
  · exact hauthors
  · exact hyc
  · exact hpl
  · exact hghc
  · exact hicc
  · exact hspc
  · exact hdesc

/-- A clean record's row contains no line feed. -/
theorem rowOfChars_no_nl (d : BenchmarkDataset) (h : cleanRecord d) :
    '\n' ∉ rowOfChars d := by
  intro hmem
  rcases mem_intercalate _ _ _ hmem with hsep | ⟨xs, hxs, hc⟩
  · simp at hsep
  · simp only [List.mem_cons, List.not_mem_nil, or_false] at hxs
    rcases hxs with rfl | rfl | rfl | rfl | rfl | rfl | rfl | rfl | rfl <;>
    · rcases mem_escapeCSV _ _ hc with hq | hfield
      · exact absurd hq (by decide)
      · exact (csvFields_clean d h _ (by simp [csvFields])).1 hfield

/-- Prepending a character to the first chunk commutes with
`intercalate`. -/
theorem cons_intercalate_head {α : Type} (c : α) (sep : List α)
    (x : List α) (t : List (List α)) :
    c :: List.intercalate sep (x :: t)
      = List.intercalate sep ((c :: x) :: t) := by
  match t with
  | [] => rw [intercalate_one, intercalate_one]
  | y :: t' =>
    rw [intercalate_cons_cons, intercalate_cons_cons]
    simp

/-- The row loop, fed the exported rows of a clean library against an
empty skip set, reproduces the library field-for-field. -/
theorem importRows_roundtrip (mint : Nat → String) :
    ∀ (i : Nat) (lib : List BenchmarkDataset),
      (∀ d ∈ lib, cleanRecord d) →
      List.Forall₂ sameFields
        (handleImportRows mint [] i
          (lib.map (fun d => String.mk (rowOfChars d)))) lib := by
  intro i lib
  induction lib generalizing i with
  | nil =>
    intro _
    rw [List.map_nil, handleImportRows]
    exact List.Forall₂.nil
  | cons d rest ih =>
    intro hclean
    rw [List.map_cons, handleImportRows]
    rw [if_neg (row_not_blank d)]
    dsimp only
    rw [parseCSVLine_rowOfChars d]
    rw [if_neg (by simp [csvFields])]
    rw [if_neg (by simp)]
    exact List.Forall₂.cons
      (mkImportedRecord_roundtrip (mint i) d (hclean d (by simp)))
      (ih (i + 1) (fun x hx => hclean x (by simp [hx])))

/-- A record fixture whose single author contains a comma. -/
def commaAuthorDataset : BenchmarkDataset :=
  { id := "1", title := "T", source := "Other", paperLink := "p",
    description := "D", itemCount := some "1", specs := some "s",
    year := some "2020", authors := some ["Smith, John"] }

/-- **C7, counterexample.**  Exporting a library whose record has the
single author `"Smith, John"` and importing the CSV into an empty
library yields a record with authors `["Smith", "John"]`: the author
list is joined with `", "` on export but split on every comma on
import, so the field values are not preserved as the claim states
(title and natural key survive, the authors do not). -/
theorem C7_counterexample :
    (handleImport (fun _ => "m") (handleExport [commaAuthorDataset]) []).map
        (fun r => r.authors) = [some ["Smith", "John"]] ∧
      commaAuthorDataset.authors = some ["Smith, John"] ∧
      (some ["Smith", "John"] : Option (List String))
        ≠ some ["Smith, John"] ∧
      (handleImport (fun _ => "m") (handleExport [commaAuthorDataset]) []).map
        (fun r => r.paperLink) = ["p"] := by
  refine ⟨by decide, rfl, by decide, by decide⟩

/-- **C7, amended.**  Exporting the library to CSV and importing it into
an empty library reproduces every record field-for-field (modulo
surrogate ids), for libraries of clean records: fields free of line
feeds and carriage returns, nonempty source, authors present with each
author nonempty, trim-stable and comma-free, year/item count/specs
present, and no empty-string github link.  Outside these conditions
fields are mangled (comma-split authors, missing optionals reified as
`""`, empty github links dropped), as the counterexample shows. -/
theorem C7_csv_roundtrip (mint : Nat → String) (lib : List BenchmarkDataset)
    (hclean : ∀ d ∈ lib, cleanRecord d) :
    List.Forall₂ sameFields (handleImport mint (handleExport lib) []) lib := by
  match lib with
  | [] =>
    rw [show handleImport mint (handleExport []) [] = [] from by
      rw [handleImport]
      rw [if_pos (by decide)]]
    exact List.Forall₂.nil
  | d :: rest =>
    have hsplit : splitCh '\n' ((handleExport (d :: rest)).data)
        = (Char.ofNat 0xFEFF :: headerChars) ::
            (d :: rest).map rowOfChars := by
      have hdata : (handleExport (d :: rest)).data
          = List.intercalate ['\n'] ((Char.ofNat 0xFEFF :: headerChars) ::
              (d :: rest).map rowOfChars) := by
        rw [show (handleExport (d :: rest)).data
            = Char.ofNat 0xFEFF :: List.intercalate ['\n']
                (headerChars :: (d :: rest).map rowOfChars) from rfl]
        exact cons_intercalate_head _ _ _ _
      rw [hdata]
      apply splitCh_intercalate
      · simp
      · intro x hx
        rcases List.mem_cons.mp hx with rfl | hx'
        · decide
        · simp only [List.mem_map] at hx'
          obtain ⟨r, hr, rfl⟩ := hx'
          exact rowOfChars_no_nl r (hclean r hr)
    rw [handleImport]
    rw [hsplit, List.map_cons, List.map_cons]
    rw [if_neg (by simp)]
    dsimp only [List.tail_cons]
    simp only [List.map_cons, List.map_map, List.map_nil, List.nil_append]
    exact importRows_roundtrip mint 1 (d :: rest) hclean

/-- A clean one-record library fixture for the round-trip witness. -/
def cleanWitnessDataset : BenchmarkDataset :=
  { id := "1", title := "T", source := "Other", paperLink := "p",
    description := "D", itemCount := some "1", specs := some "s",
    year := some "2020", authors := some ["Ann"] }

/-- Witness for C7's amended theorem: a concrete clean one-record
library round-trips with all nine fields preserved. -/
theorem C7_csv_roundtrip_witness :
    List.Forall₂ sameFields
      (handleImport (fun _ => "m") (handleExport [cleanWitnessDataset]) [])
      [cleanWitnessDataset] :=
  C7_csv_roundtrip (fun _ => "m") _ (by
    intro d hd
    rcases List.mem_cons.mp hd with rfl | hd'
    case inr => exact absurd hd' (List.not_mem_nil d)
    refine ⟨⟨by decide, by decide⟩, ⟨by decide, by decide⟩, by decide,
      by decide, ?_, by decide, ⟨by decide, by decide⟩,
      ⟨by decide, by decide⟩, by decide, ⟨by decide, by decide⟩, by decide,
      ⟨by decide, by decide⟩, by decide, ⟨by decide, by decide⟩,
      ⟨by decide, by decide⟩⟩
    intro a ha
    have ha' : a = "Ann" := by
      simpa [cleanWitnessDataset] using ha
    subst ha'
    exact ⟨by decide, by decide, by decide, by decide, by decide⟩)

end BenchmarkHub
